import Mathlib

/-!
Verification of the boilerplate-validation core of cert-manager/boilersuite.

The embedding models the current implementation in
`internal/boilersuite/template.go` (the `Template` type, `NewTemplate`,
`validateContent`, `analyzeFile`, `findExistingBoilerplate`,
`skipHeaderGoFile`, `skipHeaderShebang`) together with the pattern set of
`internal/boilersuite/regexes.go`.  File contents are modelled as `List Char`
(Go strings are byte strings; all contents relevant here are ASCII), and the
handful of `strings` standard-library functions the code uses
(`TrimSpace`, `TrimLeftFunc`, `ReplaceAll`, `Split`, `Lines`, `Contains`,
`HasPrefix`, `HasSuffix`) are given direct recursive definitions.
`time.Now().Year()` is threaded through as an explicit `nowYear` argument.
-/

namespace Boilersuite

/-- File contents and template texts are byte/char sequences. -/
abbrev Str := List Char

/-- Conversion helper for writing concrete contents. -/
def str (s : String) : Str := s.toList

/-- Go `unicode.IsSpace`, restricted to the ASCII range (all contents and
templates handled by the claims are ASCII). -/
def isSpaceChar (c : Char) : Bool :=
  c = ' ' || c = '\t' || c = '\n' || c = '\x0b' || c = '\x0c' || c = '\r'

/-- Go `strings.TrimLeftFunc(s, unicode.IsSpace)`. -/
def trimLeftWS : Str → Str
  | [] => []
  | c :: cs => if isSpaceChar c then trimLeftWS cs else c :: cs

/-- Go `strings.TrimSpace`: trim whitespace from both ends. -/
def trimSpace (l : Str) : Str :=
  ((trimLeftWS ((trimLeftWS l).reverse)).reverse)

/-- Go `strings.HasPrefix(l, pat)` (arguments: pattern, then string). -/
def startsWith : Str → Str → Bool
  | [], _ => true
  | _ :: _, [] => false
  | p :: ps, c :: cs => p = c && startsWith ps cs

/-- Go `strings.HasSuffix(l, pat)` (arguments: pattern, then string). -/
def endsWith (pat l : Str) : Bool :=
  startsWith pat.reverse l.reverse

/-- Go `strings.Contains(s, pat)` (arguments: pattern, then string). -/
def containsSub (pat : Str) : Str → Bool
  | [] => startsWith pat []
  | c :: cs => startsWith pat (c :: cs) || containsSub pat cs

/-- Fuel-driven core of `replaceAll`; the fuel only needs to dominate the
length of the string argument. -/
def replaceAllFuel (pat rep : Str) : Nat → Str → Str
  | _, [] => []
  | 0, s => s
  | fuel + 1, c :: cs =>
    if pat ≠ [] ∧ startsWith pat (c :: cs) = true then
      rep ++ replaceAllFuel pat rep fuel ((c :: cs).drop pat.length)
    else
      c :: replaceAllFuel pat rep fuel cs

/-- Go `strings.ReplaceAll(s, pat, rep)` (arguments: pattern, replacement,
then string): leftmost, non-overlapping.  All patterns used by the code
are nonempty. -/
def replaceAll (pat rep s : Str) : Str :=
  replaceAllFuel pat rep s.length s

/-- Go `strings.Split(s, "\n")`. -/
def splitNL : Str → List Str
  | [] => [[]]
  | c :: cs =>
    if c = '\n' then [] :: splitNL cs
    else
      match splitNL cs with
      | [] => [[c]]
      | l :: ls => (c :: l) :: ls

/-- Go `strings.Lines(s)`: the newline-terminated lines of `s`, keeping the
terminators; an empty string yields no lines, and a final line without a
terminator is yielded as-is. -/
def linesWithEnds : Str → List Str
  | [] => []
  | c :: cs =>
    if c = '\n' then ['\n'] :: linesWithEnds cs
    else
      match linesWithEnds cs with
      | [] => [[c]]
      | l :: ls => (c :: l) :: ls

/- ### Pattern set (`internal/boilersuite/regexes.go`) -/

/-- Modelled from the spec: the year placeholder token `<<YEAR>>` used inside
template source text (the constant `YearMarker` referenced by `template.go`
is defined in a regexes file not present under src; its value is pinned by
the spec's marker description and by `TestValidate`, whose expected patches
substitute the year exactly at the `<<YEAR>>` position of the templates). -/
def YearMarker : Str := str "<<YEAR>>"

/-- Modelled from the spec: the author placeholder token `<<AUTHOR>>`
(the constant `AuthorMarker` referenced by `template.go` is defined in a
regexes file not present under src; its value is pinned by the spec and by
the old regexes.go `AuthorMarkerRegex`, and by `TestNewGoodTemplate` /
`TestNewBadTemplate`). -/
def AuthorMarker : Str := str "<<AUTHOR>>"

/-- Modelled from the spec: the marker `NewTemplate` requires in a template,
the year placeholder in its copyright context (`Copyright <<YEAR>>`).  The
constant `CopyrightMarker` referenced by `template.go` is defined in a
regexes file not present under src.  The repository's own tests pin this
value: `TestNewBadTemplate` rejects `"# <<YEAR>> by <<AUTHOR>>"` (bare year
placeholder present) and `"# Copyright <<YEAH>> by <<AUTHOR>>"`, while
`TestNewGoodTemplate` accepts templates containing `Copyright <<YEAR>>`. -/
def CopyrightMarker : Str := str "Copyright " ++ YearMarker

/-- SkipFileRegex `(?m)^(\/\/|#) \+skip_license_check$` (regexes.go):
some newline-delimited line equals the skip-marker comment. -/
def SkipFileRegexMatch (content : Str) : Bool :=
  (splitNL content).any fun l =>
    l = str "// +skip_license_check" || l = str "# +skip_license_check"

/-- One line of GeneratedRegex `(?m)^[\/*#]+.*DO NOT EDIT\.$` (regexes.go):
a nonempty run of comment characters, anything, then the literal suffix.
Over a single `\n`-free line this is equivalent to: first char is a comment
character and the rest ends with `DO NOT EDIT.`. -/
def generatedLine : Str → Bool
  | [] => false
  | c :: cs => (c = '/' || c = '*' || c = '#') && endsWith (str "DO NOT EDIT.") cs

/-- GeneratedRegex (regexes.go): some line is a generated-file marker. -/
def GeneratedRegexMatch (content : Str) : Bool :=
  (splitNL content).any generatedLine

/-- Modelled from the spec: the boiler flag of the copyright-line pattern
(`CopyrightRegex`, defined in a regexes file not present under src).  The
spec describes "a line containing the literal word Copyright followed by a
4-digit year beginning with 20, captures the year", and `TestValidate`'s
"bad year" case (line `#Copyright something`, verdict "incorrect
boilerplate" with the current year substituted) pins that a line containing
`Copyright` matches even when no year follows, the year group then being
empty.  A line flags a boilerplate block iff it contains `Copyright`. -/
def copyrightIsMatch (l : Str) : Bool := containsSub (str "Copyright") l

/-- Modelled from the spec: the year captured by the copyright-line pattern,
the 4-digit `20xx` year of the leftmost `Copyright 20xx` occurrence, or
empty when no year follows (see `copyrightIsMatch`). -/
def copyrightYear : Str → Str
  | [] => []
  | c :: cs =>
    if startsWith (str "Copyright ") (c :: cs) = true then
      match (c :: cs).drop 10 with
      | '2' :: '0' :: d1 :: d2 :: _ =>
        if d1.isDigit && d2.isDigit then ['2', '0', d1, d2] else copyrightYear cs
      | _ => copyrightYear cs
    else copyrightYear cs

/-- A year string accepted (captured) by the copyright-line pattern:
a 4-digit year beginning with 20. -/
def yearAccepted : Str → Bool
  | ['2', '0', d1, d2] => d1.isDigit && d2.isDigit
  | _ => false

example : splitNL (str "a\nb") = [str "a", str "b"] := by decide
example : splitNL (str "") = [[]] := by decide
example : linesWithEnds (str "a\nb") = [str "a\n", str "b"] := by decide
example : linesWithEnds (str "ab\n") = [str "ab\n"] := by decide
example : linesWithEnds (str "") = [] := by decide
example : trimSpace (str "  a b\n") = str "a b" := by decide
example : replaceAll (str "<<Y>>") (str "2000") (str "c <<Y>> d <<Y>>") = str "c 2000 d 2000" := by
  decide

/- ### Boilerplate locator (`findExistingBoilerplate`, template.go) -/

/-- The `inblock` state of the locator: outside any comment block, or inside
a `/*`-, `//`-, or `#`-style block. -/
inductive Block
  | out
  | star
  | slash
  | hash
deriving DecidableEq

/-- The per-line loop of `findExistingBoilerplate`, one constructor argument
per Go local: remaining lines (from `strings.Lines`), byte position `pos`,
`inblock`, `isBoiler`, `start`, `year`.  Returns `(start, stop, year)` with
`-1` as the not-found sentinel, exactly as the Go code does. -/
def scanLines : List Str → Nat → Block → Bool → Int → Str → Int × Int × Str
  | [], pos, inb, isB, start, year =>
    if inb ≠ Block.out ∧ 0 ≤ start ∧ isB = true then (start, (pos : Int), year)
    else (-1, -1, [])
  | line :: rest, pos, inb, isB, start, year =>
    let l := trimSpace line
    let isB' := isB || copyrightIsMatch l
    let year' := if copyrightIsMatch l = true then copyrightYear l else year
    match inb with
    | Block.out =>
      if startsWith (str "/*") l = true then
        if endsWith (str "*/") l = true then
          if isB' = true then ((pos : Int), (pos : Int) + line.length, year')
          else scanLines rest (pos + line.length) Block.out false (-1) year'
        else scanLines rest (pos + line.length) Block.star isB' (pos : Int) year'
      else if startsWith (str "//") l = true then
        scanLines rest (pos + line.length) Block.slash isB' (pos : Int) year'
      else if startsWith (str "#") l = true then
        scanLines rest (pos + line.length) Block.hash isB' (pos : Int) year'
      else scanLines rest (pos + line.length) Block.out isB' start year'
    | Block.slash =>
      if startsWith (str "//") l = true then
        scanLines rest (pos + line.length) Block.slash isB' start year'
      else if 0 ≤ start ∧ isB' = true then (start, (pos : Int), year')
      else scanLines rest (pos + line.length) Block.out false (-1) year'
    | Block.hash =>
      if startsWith (str "#") l = true then
        scanLines rest (pos + line.length) Block.hash isB' start year'
      else if 0 ≤ start ∧ isB' = true then (start, (pos : Int), year')
      else scanLines rest (pos + line.length) Block.out false (-1) year'
    | Block.star =>
      if endsWith (str "*/") l = true then
        if 0 ≤ start ∧ isB' = true then (start, (pos : Int) + line.length, year')
        else scanLines rest (pos + line.length) Block.out false (-1) year'
      else scanLines rest (pos + line.length) Block.star isB' start year'

/-- `findExistingBoilerplate(content)` (template.go): byte span of an
existing boilerplate comment block and the copyright year found in it,
`(-1, -1, "")` when none is found. -/
def findExistingBoilerplate (content : Str) : Int × Int × Str :=
  scanLines (linesWithEnds content) 0 Block.out false (-1) []

/- ### Header-skip functions (template.go) -/

/-- Helper for `skipHeaderShebang`: end offset of the first
newline-terminated line starting with `#!` (ShebangRegex `(?m)^#!.*\n`,
regexes.go), scanning line starts. -/
def shebangEndLines : List Str → Nat → Nat
  | [], _ => 0
  | l :: ls, pos =>
    if startsWith (str "#!") l = true ∧ endsWith (str "\n") l = true then pos + l.length
    else shebangEndLines ls (pos + l.length)

/-- `skipHeaderShebang(raw)` (template.go): location past the shebang line,
0 when ShebangRegex does not match. -/
def skipHeaderShebang (raw : Str) : Nat :=
  shebangEndLines (linesWithEnds raw) 0

/-- Modelled from the spec: one line of the conditional-compilation
(build-tag) comment-block pattern.  The `BuildConstraintsRegex` used by the
current code is defined in a regexes file not present under src (the old
regexes.go variant carries a trailing `$` that contradicts `TestValidate`'s
"skip gobuild" case); per the spec it recognizes lines matching the
`//go:build` / `// +build` conventions, each newline-terminated. -/
def isBuildLine (l : Str) : Bool :=
  (startsWith (str "//go:build") l || startsWith (str "// +build") l)
    && endsWith (str "\n") l

/-- Modelled from the spec: end offset of the run of build-tag comment
lines consumed as a unit at the very start of the content (spec 4.1),
0 when the content does not start with one. -/
def buildConstraintsEnd : List Str → Nat
  | [] => 0
  | l :: ls => if isBuildLine l = true then l.length + buildConstraintsEnd ls else 0

/-- `skipHeaderGoFile(raw)` (template.go): location past the go build
constraints, 0 when BuildConstraintsRegex does not match. -/
def skipHeaderGoFile (raw : Str) : Nat :=
  buildConstraintsEnd (linesWithEnds raw)

/- ### Template construction (`NewTemplate`, template.go) -/

/-- The per-category header-skip dispatch of `NewTemplate` (a closed set of
strategies: none, go build constraints, shebang). -/
inductive SkipKind
  | noSkip
  | goFile
  | shebang
deriving DecidableEq

/-- Run the selected header-skip function; `noSkip` stands for Go's nil
function pointer, whose two call sites substitute 0. -/
def runSkip : SkipKind → Str → Nat
  | SkipKind.noSkip, _ => 0
  | SkipKind.goFile, raw => skipHeaderGoFile raw
  | SkipKind.shebang, raw => skipHeaderShebang raw

/-- Pre-processed template (`Template`, template.go): sanity-checked text
with the `<<AUTHOR>>` marker replaced, and the optional header-skip step. -/
structure Template where
  text : Str
  skipKind : SkipKind
deriving DecidableEq

/-- The `switch ext` of `NewTemplate` selecting the header-skip function. -/
def extSkipKind (ext : Str) : SkipKind :=
  if ext = str "go" then SkipKind.goFile
  else if ext = str "sh" ∨ ext = str "bash" ∨ ext = str "py" then SkipKind.shebang
  else SkipKind.noSkip

/-- `NewTemplate(content, ext, expectedAuthor)` (template.go): `none` models
the error returns (missing copyright marker, missing author marker, Windows
line endings); otherwise the author marker is substituted, the text trimmed
and terminated with exactly one newline, and the skip function selected. -/
def NewTemplate (content ext expectedAuthor : Str) : Option Template :=
  if containsSub CopyrightMarker content = false then none
  else if containsSub AuthorMarker content = false then none
  else if content.contains '\r' = true then none
  else some
    { text := trimSpace (replaceAll AuthorMarker expectedAuthor content) ++ ['\n']
      skipKind := extSkipKind ext }

/- ### File analysis and validation (template.go) -/

/-- Go slice `s[a:b]`. -/
def goSlice (s : Str) (a b : Nat) : Str := (s.take b).drop a

/-- The span computation of `analyzeFile`: the located span with `start`
advanced by the header-skip function applied to the span's content, or, when
no block was located, the insertion offset given by the header-skip function
on the whole content (both ends equal). -/
def analyzeSpan (t : Template) (content : Str) : Int × Int :=
  let r := findExistingBoilerplate content
  if r.1 = -1 then
    ((runSkip t.skipKind content : Int), (runSkip t.skipKind content : Int))
  else
    (r.1 + (runSkip t.skipKind (goSlice content r.1.toNat r.2.1.toNat) : Int), r.2.1)

/-- `analyzeFile(content)` (template.go): the head/boilerplate/foot split of
the content and the copyright year, the current year (`nowYear`, Go
`time.Now().Year()`) when none was found. -/
def analyzeFile (t : Template) (nowYear : Str) (content : Str) :
    Str × Str × Str × Str :=
  let span := analyzeSpan t content
  let yr := (findExistingBoilerplate content).2.2
  (content.take span.1.toNat,
   goSlice content span.1.toNat span.2.toNat,
   content.drop span.2.toNat,
   if yr = [] then nowYear else yr)

/-- Whether the original content uses Windows-style line breaks: the
`strings.Contains(content, "\r\n")` test of `validateContent`. -/
def crlfMode (content : Str) : Bool := containsSub (str "\r\n") content

/-- The newline separator `nl` selected by `validateContent`. -/
def nlOf (content : Str) : Str := if crlfMode content then str "\r\n" else str "\n"

/-- The `boilExpect` value of `validateContent`: the template text with the
year placeholder replaced, converted to CRLF when the content uses CRLF. -/
def boilExpectOf (t : Template) (nowYear content : Str) : Str :=
  let b := replaceAll YearMarker (analyzeFile t nowYear content).2.2.2 t.text
  if crlfMode content then replaceAll (str "\n") (str "\r\n") b else b

/-- The head part of the expected content: the head region trimmed of
surrounding whitespace, followed by exactly one empty line when nonempty. -/
def headPartOf (t : Template) (nowYear content : Str) : Str :=
  let h := trimSpace (analyzeFile t nowYear content).1
  if h ≠ [] then h ++ nlOf content ++ nlOf content else h

/-- The foot part of the expected content: one line break then the foot
region with leading whitespace stripped, when the foot region is nonempty. -/
def footPartOf (t : Template) (nowYear content : Str) : Str :=
  let f := (analyzeFile t nowYear content).2.2.1
  if f ≠ [] then nlOf content ++ trimLeftWS f else f

/-- The `expect` value assembled by `validateContent`. -/
def expectedContent (t : Template) (nowYear content : Str) : Str :=
  headPartOf t nowYear content ++ boilExpectOf t nowYear content
    ++ footPartOf t nowYear content

/-- Validation outcome: success, or failure with its reason and the expected
content (from which the unified-diff patch transforming actual into expected
content is rendered; the diff rendering itself is presentation glue and is
not modelled). -/
inductive VResult
  | ok
  | fail (reason : Str) (expect : Str)
deriving DecidableEq

/-- `validateContent(content, path, patch)` (template.go): skip-marker and
generated-marker escape hatch, then comparison of the content against the
expected assembly; on mismatch the reason is "missing boilerplate" when the
located boilerplate part is empty, else "incorrect boilerplate". -/
def validateContent (t : Template) (nowYear content : Str) : VResult :=
  if SkipFileRegexMatch content || GeneratedRegexMatch content then VResult.ok
  else if content ≠ expectedContent t nowYear content then
    if (analyzeFile t nowYear content).2.1 = [] then
      VResult.fail (str "missing boilerplate") (expectedContent t nowYear content)
    else
      VResult.fail (str "incorrect boilerplate") (expectedContent t nowYear content)
  else VResult.ok

/-- The reason of a failed validation, if any. -/
def failReason : VResult → Option Str
  | VResult.ok => none
  | VResult.fail r _ => some r

/-- The expected content of a failed validation, if any. -/
def failExpect : VResult → Option Str
  | VResult.ok => none
  | VResult.fail _ e => some e

/- ### Concrete templates of the repository's own test suite
(template_test.go), used as sanity checks of the embedding and as witness
material. -/

/-- The shell-style test template (`tmplHash`, template_test.go) loaded with
author Unittest and category sh. -/
def tmplSh : Template :=
  (NewTemplate (str "#header\n#Copyright <<YEAR>> by <<AUTHOR>>\n#footer")
    (str "sh") (str "Unittest")).getD ⟨[], SkipKind.noSkip⟩

/-- The go-style test template (`tmplTrim`, template_test.go) loaded with
author Unittest and category go. -/
def tmplGo : Template :=
  (NewTemplate
    (str "  \n// header\n// Copyright <<YEAR>> by <<AUTHOR>>\n//\n// footer\n\n\n")
    (str "go") (str "Unittest")).getD ⟨[], SkipKind.noSkip⟩

/-- The one-line C-style test template (`tmplOneline`, template_test.go)
loaded with author Unittest and category c. -/
def tmplC : Template :=
  (NewTemplate (str "/*Copyright <<YEAR>> by <<AUTHOR>>*/")
    (str "c") (str "Unittest")).getD ⟨[], SkipKind.noSkip⟩

example : tmplSh.text = str "#header\n#Copyright <<YEAR>> by Unittest\n#footer\n" := by decide

example : tmplSh.skipKind = SkipKind.shebang := by decide

/- The TestValidate cases of template_test.go, replayed on the embedding
(nowYear 2026 stands for the current year). -/

example :
    validateContent tmplSh (str "2026")
      (str "#header\n#Copyright 2000 by Unittest\n#footer\n\nfoo\n") = VResult.ok := by
  decide

example :
    validateContent tmplGo (str "2026")
      (str "package foo\n// +skip_license_check\n") = VResult.ok := by
  decide

example :
    validateContent tmplSh (str "2026") (str "#!/bin/sh\n#DO NOT EDIT.\n") = VResult.ok := by
  decide

example :
    validateContent tmplSh (str "2026") (str "") =
      VResult.fail (str "missing boilerplate")
        (str "#header\n#Copyright 2026 by Unittest\n#footer\n") := by
  decide

example :
    validateContent tmplSh (str "2026") (str "foo\nbar\nbaz\n") =
      VResult.fail (str "missing boilerplate")
        (str "#header\n#Copyright 2026 by Unittest\n#footer\n\nfoo\nbar\nbaz\n") := by
  decide

example :
    validateContent tmplSh (str "2026") (str "#header\n#Copyright 2000\n#footer\n\nfoo\n") =
      VResult.fail (str "incorrect boilerplate")
        (str "#header\n#Copyright 2000 by Unittest\n#footer\n\nfoo\n") := by
  decide

example :
    validateContent tmplSh (str "2026")
      (str "#header\n#Copyright something\n#footer\n\nfoo\n") =
      VResult.fail (str "incorrect boilerplate")
        (str "#header\n#Copyright 2026 by Unittest\n#footer\n\nfoo\n") := by
  decide

example :
    validateContent tmplSh (str "2026")
      (str "#!/bin/sh\n#header\n#Copyright 2000 by Unittest\n#footer\nfoo\n") =
      VResult.fail (str "incorrect boilerplate")
        (str "#!/bin/sh\n\n#header\n#Copyright 2000 by Unittest\n#footer\n\nfoo\n") := by
  decide

example :
    validateContent tmplGo (str "2026")
      (str "// +build linux\n//go:build linux\npackage foo\n") =
      VResult.fail (str "missing boilerplate")
        (str "// +build linux\n//go:build linux\n\n// header\n// Copyright 2026 by Unittest\n//\n// footer\n\npackage foo\n") := by
  decide

example :
    validateContent tmplSh (str "2026") (str "#!/bin/bash\r\n\r\nfoo\r\n") =
      VResult.fail (str "missing boilerplate")
        (str "#!/bin/bash\r\n\r\n#header\r\n#Copyright 2026 by Unittest\r\n#footer\r\n\r\nfoo\r\n") := by
  decide

example :
    validateContent tmplSh (str "2026")
      (str "#header\n#Copyright 2000 by Unittest\n#footer\n\nfoo\r\n") =
      VResult.fail (str "incorrect boilerplate")
        (str "#header\r\n#Copyright 2000 by Unittest\r\n#footer\r\n\r\nfoo\r\n") := by
  decide

example :
    validateContent tmplC (str "2026") (str "\n\n/*Copyright 2000 by Unittest*/\n\n\nfoo\n") =
      VResult.fail (str "incorrect boilerplate")
        (str "/*Copyright 2000 by Unittest*/\n\nfoo\n") := by
  decide

/- ### Generic lemmas about the string operations -/

theorem startsWith_iff {p l : Str} : startsWith p l = true ↔ p <+: l := by
  induction p generalizing l with
  | nil => simp [startsWith]
  | cons a p ih =>
    cases l with
    | nil => simp [startsWith]
    | cons c cs =>
      rw [show startsWith (a :: p) (c :: cs) = (decide (a = c) && startsWith p cs) from rfl]
      rw [Bool.and_eq_true, decide_eq_true_eq, List.cons_prefix_cons]
      exact and_congr_right fun _ => ih

theorem containsSub_iff {p l : Str} : containsSub p l = true ↔ p <:+: l := by
  induction l with
  | nil => simp [containsSub, startsWith_iff]
  | cons c cs ih => simp [containsSub, startsWith_iff, ih, List.infix_cons_iff]

theorem containsSub_false_mono {p x y : Str} (hxy : x <:+: y)
    (hy : containsSub p y = false) : containsSub p x = false := by
  by_contra h
  rw [Bool.not_eq_false, containsSub_iff] at h
  rw [← Bool.not_eq_true, containsSub_iff] at hy
  exact hy (h.trans hxy)

theorem mem_of_containsSub {c : Char} {p l : Str} (hc : c ∈ p)
    (h : containsSub p l = true) : c ∈ l :=
  (containsSub_iff.mp h).subset hc

theorem linesWithEnds_flatten (s : Str) : (linesWithEnds s).flatten = s := by
  induction s with
  | nil => rfl
  | cons c cs ih =>
    by_cases h : c = '\n'
    · subst h; simp [linesWithEnds, ih]
    · simp only [linesWithEnds, if_neg h]
      cases hl : linesWithEnds cs with
      | nil => simp [hl] at ih; simp [ih]
      | cons l ls => simp only [List.flatten]; rw [hl] at ih; simpa using ih

theorem linesWithEnds_sum_length (s : Str) :
    ((linesWithEnds s).map List.length).sum = s.length := by
  rw [← List.length_flatten, linesWithEnds_flatten]

theorem replaceAllFuel_mem {pat rep : Str} {c : Char} :
    ∀ (fuel : Nat) (s : Str), c ∈ replaceAllFuel pat rep fuel s → c ∈ rep ∨ c ∈ s := by
  intro fuel
  induction fuel with
  | zero => intro s h; cases s with
    | nil => simp [replaceAllFuel] at h
    | cons a as => exact Or.inr h
  | succ n ih =>
    intro s h
    cases s with
    | nil => simp [replaceAllFuel] at h
    | cons a as =>
      rw [show replaceAllFuel pat rep (n + 1) (a :: as) =
          if pat ≠ [] ∧ startsWith pat (a :: as) = true then
            rep ++ replaceAllFuel pat rep n ((a :: as).drop pat.length)
          else a :: replaceAllFuel pat rep n as from rfl] at h
      split at h
      · rcases List.mem_append.mp h with h | h
        · exact Or.inl h
        · rcases ih _ h with h | h
          · exact Or.inl h
          · exact Or.inr (List.mem_of_mem_drop h)
      · rcases List.mem_cons.mp h with h | h
        · exact Or.inr (h ▸ List.mem_cons_self a as)
        · rcases ih _ h with h | h
          · exact Or.inl h
          · exact Or.inr (List.mem_cons_of_mem a h)

theorem replaceAll_mem {pat rep s : Str} {c : Char}
    (h : c ∈ replaceAll pat rep s) : c ∈ rep ∨ c ∈ s :=
  replaceAllFuel_mem _ _ h

/- ### Whitespace-trimming lemmas -/

theorem trimLeftWS_eq_nil_of_space {w : Str} (h : ∀ c ∈ w, isSpaceChar c = true) :
    trimLeftWS w = [] := by
  induction w with
  | nil => rfl
  | cons c cs ih =>
    simp only [trimLeftWS, if_pos (h c (List.mem_cons_self c cs))]
    exact ih fun d hd => h d (List.mem_cons_of_mem c hd)

theorem trimLeftWS_append_space {w l : Str} (h : ∀ c ∈ w, isSpaceChar c = true) :
    trimLeftWS (w ++ l) = trimLeftWS l := by
  induction w with
  | nil => rfl
  | cons c cs ih =>
    simp only [List.cons_append, trimLeftWS, if_pos (h c (List.mem_cons_self c cs))]
    exact ih fun d hd => h d (List.mem_cons_of_mem c hd)

theorem trimLeftWS_head_not_space (l : Str) :
    trimLeftWS l = [] ∨ ∃ c cs, trimLeftWS l = c :: cs ∧ isSpaceChar c = false := by
  induction l with
  | nil => exact Or.inl rfl
  | cons c cs ih =>
    by_cases h : isSpaceChar c = true
    · simpa [trimLeftWS, h] using ih
    · exact Or.inr ⟨c, cs, by simp [trimLeftWS, h], by simpa using h⟩

theorem trimLeftWS_of_head {c : Char} {cs : Str} (h : isSpaceChar c = false) :
    trimLeftWS (c :: cs) = c :: cs := by
  simp [trimLeftWS, h]

theorem trimLeftWS_idem (l : Str) : trimLeftWS (trimLeftWS l) = trimLeftWS l := by
  rcases trimLeftWS_head_not_space l with h | ⟨c, cs, h, hc⟩
  · rw [h]; rfl
  · rw [h, trimLeftWS_of_head hc]

theorem trimLeftWS_suffix (l : Str) : trimLeftWS l <:+ l := by
  induction l with
  | nil => exact List.suffix_refl []
  | cons c cs ih =>
    by_cases h : isSpaceChar c = true
    · simp only [trimLeftWS, if_pos h]
      exact ih.trans (List.suffix_cons c cs)
    · simp only [trimLeftWS, if_neg h]
      exact List.suffix_refl _

theorem trimSpace_infixOf (l : Str) : trimSpace l <:+: l := by
  unfold trimSpace
  have h1 : trimLeftWS l <:+ l := trimLeftWS_suffix l
  have h2 : trimLeftWS (trimLeftWS l).reverse <:+ (trimLeftWS l).reverse :=
    trimLeftWS_suffix _
  have h3 : (trimLeftWS (trimLeftWS l).reverse).reverse <+: trimLeftWS l := by
    rw [← List.reverse_suffix] at *
    simpa using h2
  exact h3.isInfix.trans h1.isInfix

theorem trimSpace_append_space {g w : Str} (h : ∀ c ∈ w, isSpaceChar c = true) :
    trimSpace (g ++ w) = trimSpace g := by
  unfold trimSpace
  have key : ∀ a b : Str, trimLeftWS (a ++ b) =
      if trimLeftWS a = [] then trimLeftWS b else trimLeftWS a ++ b := by
    intro a b
    induction a with
    | nil => simp [trimLeftWS]
    | cons c cs ih =>
      by_cases hc : isSpaceChar c = true
      · simpa [trimLeftWS, hc] using ih
      · simp [trimLeftWS, hc]
  rw [key]
  by_cases hg : trimLeftWS g = []
  · rw [if_pos hg, trimLeftWS_eq_nil_of_space h, hg]
  · rw [if_neg hg, List.reverse_append,
      trimLeftWS_append_space (by intro c hc; exact h c (List.mem_reverse.mp hc))]

theorem trimSpace_prefix_trimLeftWS (l : Str) : trimSpace l <+: trimLeftWS l := by
  show (trimLeftWS (trimLeftWS l).reverse).reverse <+: trimLeftWS l
  rw [← List.reverse_suffix]
  simpa using trimLeftWS_suffix (trimLeftWS l).reverse

theorem trimSpace_head_not_space {l : Str} (h : trimSpace l ≠ []) :
    ∃ c cs, trimSpace l = c :: cs ∧ isSpaceChar c = false := by
  have hpre := trimSpace_prefix_trimLeftWS l
  rcases List.exists_cons_of_ne_nil h with ⟨e, es, he⟩
  rcases trimLeftWS_head_not_space l with h1 | ⟨d, ds, h1, hd⟩
  · rw [h1, List.prefix_nil] at hpre
    exact absurd hpre h
  · refine ⟨e, es, he, ?_⟩
    rw [he, h1] at hpre
    rcases hpre with ⟨t, ht⟩
    have hed : e = d := by
      have := congrArg List.head? ht
      simpa using this
    exact hed ▸ hd

theorem trimSpace_getLast_not_space {l : Str} (h : trimSpace l ≠ []) :
    ∃ c, (trimSpace l).getLast? = some c ∧ isSpaceChar c = false := by
  rcases trimLeftWS_head_not_space (trimLeftWS l).reverse with h2 | ⟨c, cs, h2, hc⟩
  · exact absurd (show trimSpace l = [] by
      show (trimLeftWS (trimLeftWS l).reverse).reverse = []
      rw [h2]; rfl) h
  · refine ⟨c, ?_, hc⟩
    show (trimLeftWS (trimLeftWS l).reverse).reverse.getLast? = some c
    rw [h2, List.getLast?_reverse]
    rfl

theorem trimSpace_idem (l : Str) : trimSpace (trimSpace l) = trimSpace l := by
  by_cases h : trimSpace l = []
  · rw [h]; rfl
  · rcases trimSpace_head_not_space h with ⟨c, cs, hhead, hc⟩
    rcases trimSpace_getLast_not_space h with ⟨d, hlast, hd⟩
    have h1 : trimLeftWS (trimSpace l) = trimSpace l := by
      rw [hhead, trimLeftWS_of_head hc, ← hhead]
    have h2 : trimLeftWS (trimSpace l).reverse = (trimSpace l).reverse := by
      rcases List.exists_cons_of_ne_nil
          (show (trimSpace l).reverse ≠ [] by simpa using h) with ⟨e, es, he⟩
      have he2 : e = d := by
        have hh : (trimSpace l).reverse.head? = some e := by rw [he]; rfl
        rw [List.head?_reverse, hlast] at hh
        exact (Option.some_inj.mp hh).symm
      rw [he, trimLeftWS_of_head (he2 ▸ hd)]
    show (trimLeftWS (trimLeftWS (trimSpace l)).reverse).reverse = trimSpace l
    rw [h1, h2, List.reverse_reverse]

/- ### Locator scan invariants -/

theorem copyrightYear_no_cr (l : Str) : '\r' ∉ copyrightYear l := by
  induction l with
  | nil => simp [copyrightYear]
  | cons c cs ih =>
    rw [copyrightYear]
    split
    · split
      · rename_i d1 d2 rest heq
        split
        · rename_i hdig
          intro hmem
          rw [Bool.and_eq_true] at hdig
          rcases List.mem_cons.mp hmem with h | hmem
          · exact absurd h (by decide)
          rcases List.mem_cons.mp hmem with h | hmem
          · exact absurd h (by decide)
          rcases List.mem_cons.mp hmem with h | hmem
          · exact absurd (h ▸ hdig.1) (by decide)
          rcases List.mem_cons.mp hmem with h | hmem
          · exact absurd (h ▸ hdig.2) (by decide)
          · simp at hmem
        · exact ih
      · exact ih
    · exact ih

theorem scanLines_boiler : ∀ (ls : List Str) (pos : Nat) (inb : Block) (isB : Bool)
    (start : Int) (year : Str),
    (scanLines ls pos inb isB start year).1 ≠ -1 →
    isB = true ∨ ∃ l ∈ ls, copyrightIsMatch (trimSpace l) = true := by
  intro ls
  induction ls with
  | nil =>
    intro pos inb isB start year h
    left
    rw [scanLines] at h
    split at h
    · rename_i hcond; exact hcond.2.2
    · simp at h
  | cons line rest ih =>
    intro pos inb isB start year h
    by_cases hc : copyrightIsMatch (trimSpace line) = true
    · exact Or.inr ⟨line, List.mem_cons_self _ _, hc⟩
    · have hc' : copyrightIsMatch (trimSpace line) = false := by simpa using hc
      have liftF : ∀ {p : Nat} {b : Block} {st : Int} {yr : Str},
          (scanLines rest p b false st yr).1 ≠ -1 →
          isB = true ∨ ∃ l ∈ line :: rest, copyrightIsMatch (trimSpace l) = true := by
        intro p b st yr hr
        rcases ih p b false st yr hr with h' | ⟨l, hl, hcl⟩
        · exact absurd h' (by simp)
        · exact Or.inr ⟨l, List.mem_cons_of_mem _ hl, hcl⟩
      cases inb with
      | out =>
        rw [scanLines] at h
        simp only [hc', Bool.or_false, if_neg (by simp : ¬(false = true))] at h
        split at h
        · split at h
          · split at h
            · rename_i hiB; exact Or.inl hiB
            · exact liftF h
          · rename_i hiB
            rcases ih _ _ _ _ _ h with h' | ⟨l, hl, hcl⟩
            · exact Or.inl h'
            · exact Or.inr ⟨l, List.mem_cons_of_mem _ hl, hcl⟩
        · split at h
          · rcases ih _ _ _ _ _ h with h' | ⟨l, hl, hcl⟩
            · exact Or.inl h'
            · exact Or.inr ⟨l, List.mem_cons_of_mem _ hl, hcl⟩
          · split at h
            · rcases ih _ _ _ _ _ h with h' | ⟨l, hl, hcl⟩
              · exact Or.inl h'
              · exact Or.inr ⟨l, List.mem_cons_of_mem _ hl, hcl⟩
            · rcases ih _ _ _ _ _ h with h' | ⟨l, hl, hcl⟩
              · exact Or.inl h'
              · exact Or.inr ⟨l, List.mem_cons_of_mem _ hl, hcl⟩
      | slash =>
        rw [scanLines] at h
        simp only [hc', Bool.or_false, if_neg (by simp : ¬(false = true))] at h
        split at h
        · rcases ih _ _ _ _ _ h with h' | ⟨l, hl, hcl⟩
          · exact Or.inl h'
          · exact Or.inr ⟨l, List.mem_cons_of_mem _ hl, hcl⟩
        · split at h
          · rename_i hcond; exact Or.inl hcond.2
          · exact liftF h
      | hash =>
        rw [scanLines] at h
        simp only [hc', Bool.or_false, if_neg (by simp : ¬(false = true))] at h
        split at h
        · rcases ih _ _ _ _ _ h with h' | ⟨l, hl, hcl⟩
          · exact Or.inl h'
          · exact Or.inr ⟨l, List.mem_cons_of_mem _ hl, hcl⟩
        · split at h
          · rename_i hcond; exact Or.inl hcond.2
          · exact liftF h
      | star =>
        rw [scanLines] at h
        simp only [hc', Bool.or_false, if_neg (by simp : ¬(false = true))] at h
        split at h
        · split at h
          · rename_i hcond; exact Or.inl hcond.2
          · exact liftF h
        · rcases ih _ _ _ _ _ h with h' | ⟨l, hl, hcl⟩
          · exact Or.inl h'
          · exact Or.inr ⟨l, List.mem_cons_of_mem _ hl, hcl⟩

theorem scanLines_year_no_cr : ∀ (ls : List Str) (pos : Nat) (inb : Block) (isB : Bool)
    (start : Int) (year : Str), '\r' ∉ year →
    '\r' ∉ (scanLines ls pos inb isB start year).2.2 := by
  intro ls
  induction ls with
  | nil =>
    intro pos inb isB start year hy
    rw [scanLines]
    split
    · exact hy
    · simp
  | cons line rest ih =>
    intro pos inb isB start year hy
    have hy' : '\r' ∉ (if copyrightIsMatch (trimSpace line) = true then
        copyrightYear (trimSpace line) else year) := by
      split
      · exact copyrightYear_no_cr _
      · exact hy
    cases inb with
    | out =>
      rw [scanLines]
      split
      · split
        · split
          · exact hy'
          · exact ih _ _ _ _ _ hy'
        · exact ih _ _ _ _ _ hy'
      · split
        · exact ih _ _ _ _ _ hy'
        · split
          · exact ih _ _ _ _ _ hy'
          · exact ih _ _ _ _ _ hy'
    | slash =>
      rw [scanLines]
      split
      · exact ih _ _ _ _ _ hy'
      · split
        · exact hy'
        · exact ih _ _ _ _ _ hy'
    | hash =>
      rw [scanLines]
      split
      · exact ih _ _ _ _ _ hy'
      · split
        · exact hy'
        · exact ih _ _ _ _ _ hy'
    | star =>
      rw [scanLines]
      split
      · split
        · exact hy'
        · exact ih _ _ _ _ _ hy'
      · exact ih _ _ _ _ _ hy'

theorem scanLines_bounds : ∀ (ls : List Str) (pos : Nat) (inb : Block) (isB : Bool)
    (start : Int) (year : Str),
    (start = -1 ∨ (0 ≤ start ∧ start ≤ (pos : Int))) →
    ((scanLines ls pos inb isB start year).1 = -1 ∧
      (scanLines ls pos inb isB start year).2.1 = -1) ∨
    (0 ≤ (scanLines ls pos inb isB start year).1 ∧
      (scanLines ls pos inb isB start year).1 ≤ (scanLines ls pos inb isB start year).2.1 ∧
      (scanLines ls pos inb isB start year).2.1 ≤
        (pos : Int) + (((ls.map List.length).sum : Nat) : Int)) := by
  intro ls
  induction ls with
  | nil =>
    intro pos inb isB start year hinv
    rw [scanLines]
    split
    · rename_i hcond
      right
      dsimp only
      simp only [List.map_nil, List.sum_nil, Nat.cast_zero, add_zero]
      have h0 : 0 ≤ start := hcond.2.1
      rcases hinv with h | ⟨h1, h2⟩ <;> [omega; exact ⟨h0, h2, le_refl _⟩]
    · left; exact ⟨rfl, rfl⟩
  | cons line rest ih =>
    intro pos inb isB start year hinv
    have hcont : start = -1 ∨ 0 ≤ start ∧ start ≤ ((pos + line.length : Nat) : Int) := by
      rcases hinv with h | ⟨h1, h2⟩
      · exact Or.inl h
      · right; refine ⟨h1, ?_⟩; push_cast; omega
    have hnew : ((pos : Nat) : Int) = -1 ∨
        0 ≤ ((pos : Nat) : Int) ∧ ((pos : Nat) : Int) ≤ ((pos + line.length : Nat) : Int) := by
      right; constructor <;> [omega; (push_cast; omega)]
    have hreset : (-1 : Int) = -1 ∨ (0 ≤ (-1 : Int) ∧ (-1 : Int) ≤ ((pos + line.length : Nat) : Int)) :=
      Or.inl rfl
    have step : ∀ (b : Block) (iB : Bool) (st : Int) (yr : Str),
        (st = -1 ∨ (0 ≤ st ∧ st ≤ ((pos + line.length : Nat) : Int))) →
        ((scanLines rest (pos + line.length) b iB st yr).1 = -1 ∧
          (scanLines rest (pos + line.length) b iB st yr).2.1 = -1) ∨
        (0 ≤ (scanLines rest (pos + line.length) b iB st yr).1 ∧
          (scanLines rest (pos + line.length) b iB st yr).1 ≤
            (scanLines rest (pos + line.length) b iB st yr).2.1 ∧
          (scanLines rest (pos + line.length) b iB st yr).2.1 ≤
            (pos : Int) + ((((line :: rest).map List.length).sum : Nat) : Int)) := by
      intro b iB st yr hst
      rcases ih (pos + line.length) b iB st yr hst with ⟨h1, h2⟩ | ⟨h1, h2, h3⟩
      · exact Or.inl ⟨h1, h2⟩
      · refine Or.inr ⟨h1, h2, ?_⟩
        simp only [List.map_cons, List.sum_cons, Nat.cast_add] at *
        omega
    cases inb with
    | out =>
      rw [scanLines]
      split
      · split
        · split
          · right
            dsimp only
            simp only [List.map_cons, List.sum_cons, Nat.cast_add]
            omega
          · exact step _ _ _ _ hreset
        · exact step _ _ _ _ hnew
      · split
        · exact step _ _ _ _ hnew
        · split
          · exact step _ _ _ _ hnew
          · exact step _ _ _ _ hcont
    | slash =>
      rw [scanLines]
      split
      · exact step _ _ _ _ hcont
      · split
        · rename_i hcond
          right
          dsimp only
          simp only [List.map_cons, List.sum_cons, Nat.cast_add]
          have h0 : 0 ≤ start := hcond.1
          rcases hinv with h | ⟨h1, h2⟩
          · omega
          · omega
        · exact step _ _ _ _ hreset
    | hash =>
      rw [scanLines]
      split
      · exact step _ _ _ _ hcont
      · split
        · rename_i hcond
          right
          dsimp only
          simp only [List.map_cons, List.sum_cons, Nat.cast_add]
          have h0 : 0 ≤ start := hcond.1
          rcases hinv with h | ⟨h1, h2⟩
          · omega
          · omega
        · exact step _ _ _ _ hreset
    | star =>
      rw [scanLines]
      split
      · split
        · rename_i hcond
          right
          dsimp only
          simp only [List.map_cons, List.sum_cons, Nat.cast_add]
          have h0 : 0 ≤ start := hcond.1
          rcases hinv with h | ⟨h1, h2⟩
          · omega
          · omega
        · exact step _ _ _ _ hreset
      · exact step _ _ _ _ hcont

/-- Bounds of the locator: either the not-found sentinel, or a span
`0 ≤ start ≤ stop ≤ length`. -/
theorem findExistingBoilerplate_bounds (content : Str) :
    ((findExistingBoilerplate content).1 = -1 ∧
      (findExistingBoilerplate content).2.1 = -1) ∨
    (0 ≤ (findExistingBoilerplate content).1 ∧
      (findExistingBoilerplate content).1 ≤ (findExistingBoilerplate content).2.1 ∧
      (findExistingBoilerplate content).2.1 ≤ (content.length : Int)) := by
  have := scanLines_bounds (linesWithEnds content) 0 Block.out false (-1) [] (Or.inl rfl)
  rcases this with h | ⟨h1, h2, h3⟩
  · exact Or.inl h
  · refine Or.inr ⟨h1, h2, ?_⟩
    rw [linesWithEnds_sum_length] at h3
    simpa using h3

/- ### Header-skip bounds -/

theorem shebangEndLines_le : ∀ (ls : List Str) (pos : Nat),
    shebangEndLines ls pos ≤ pos + (ls.map List.length).sum := by
  intro ls
  induction ls with
  | nil => intro pos; simp [shebangEndLines]
  | cons l ls ih =>
    intro pos
    rw [shebangEndLines]
    split
    · simp only [List.map_cons, List.sum_cons]
      omega
    · have := ih (pos + l.length)
      simp only [List.map_cons, List.sum_cons]
      omega

theorem buildConstraintsEnd_le : ∀ (ls : List Str),
    buildConstraintsEnd ls ≤ (ls.map List.length).sum := by
  intro ls
  induction ls with
  | nil => simp [buildConstraintsEnd]
  | cons l ls ih =>
    rw [buildConstraintsEnd]
    split
    · simp only [List.map_cons, List.sum_cons]
      omega
    · simp only [List.map_cons, List.sum_cons]
      omega

theorem runSkip_le (k : SkipKind) (raw : Str) : runSkip k raw ≤ raw.length := by
  cases k with
  | noSkip => simp [runSkip]
  | goFile =>
    have := buildConstraintsEnd_le (linesWithEnds raw)
    rw [linesWithEnds_sum_length] at this
    exact this
  | shebang =>
    have := shebangEndLines_le (linesWithEnds raw) 0
    rw [Nat.zero_add, linesWithEnds_sum_length] at this
    exact this

theorem take_slice_drop {α : Type} (s : List α) (a b : Nat) (hab : a ≤ b) :
    s.take a ++ (s.take b).drop a ++ s.drop b = s := by
  have h1 : s.take a = (s.take b).take a := by
    rw [List.take_take, min_eq_left hab]
  rw [h1, List.take_append_drop, List.take_append_drop]

/- ### C10 -/

/-- C10: for every template and content, `analyzeFile` produces a
well-formed three-way split: the adjusted span satisfies
`0 ≤ start ≤ stop ≤ length content` (also when a header-skip function
advances `start`), and the returned head, boilerplate and foot parts
concatenate back to exactly the original content. -/
theorem c10_analyzeFile_wellFormed_split (t : Template) (nowYear content : Str) :
    0 ≤ (analyzeSpan t content).1 ∧
    (analyzeSpan t content).1 ≤ (analyzeSpan t content).2 ∧
    (analyzeSpan t content).2 ≤ (content.length : Int) ∧
    (analyzeFile t nowYear content).1 ++ (analyzeFile t nowYear content).2.1 ++
      (analyzeFile t nowYear content).2.2.1 = content := by
  have hspan : 0 ≤ (analyzeSpan t content).1 ∧
      (analyzeSpan t content).1 ≤ (analyzeSpan t content).2 ∧
      (analyzeSpan t content).2 ≤ (content.length : Int) := by
    unfold analyzeSpan
    rcases findExistingBoilerplate_bounds content with ⟨h1, _⟩ | ⟨h1, h2, h3⟩
    · rw [if_pos h1]
      have hle := runSkip_le t.skipKind content
      refine ⟨by omega, le_refl _, by omega⟩
    · rw [if_neg (by omega)]
      have hle := runSkip_le t.skipKind
        (goSlice content (findExistingBoilerplate content).1.toNat
          (findExistingBoilerplate content).2.1.toNat)
      have hlen : (goSlice content (findExistingBoilerplate content).1.toNat
          (findExistingBoilerplate content).2.1.toNat).length =
          min (findExistingBoilerplate content).2.1.toNat content.length -
            (findExistingBoilerplate content).1.toNat := by
        simp [goSlice]
      rw [hlen] at hle
      refine ⟨by omega, by dsimp only; omega, by dsimp only; omega⟩
  refine ⟨hspan.1, hspan.2.1, hspan.2.2, ?_⟩
  show content.take (analyzeSpan t content).1.toNat ++
      goSlice content (analyzeSpan t content).1.toNat (analyzeSpan t content).2.toNat ++
      content.drop (analyzeSpan t content).2.toNat = content
  exact take_slice_drop content _ _ (by omega)

/- ### C2 -/

/-- C2 (amended): whenever `findExistingBoilerplate` reports a span
(start not -1), some line of the content matches the copyright-line
pattern; however the matching line need not lie inside the reported block
(the `isBoiler` flag set by a copyright line outside any comment block
carries over to the next block). -/
theorem c2_span_implies_copyright_line (content : Str)
    (h : (findExistingBoilerplate content).1 ≠ -1) :
    ∃ l ∈ linesWithEnds content, copyrightIsMatch (trimSpace l) = true := by
  rcases scanLines_boiler (linesWithEnds content) 0 Block.out false (-1) [] h with h' | h'
  · exact Bool.noConfusion h'
  · exact h'

/-- C2 witness: the concrete hash-comment boilerplate has a copyright line. -/
theorem c2_witness :
    ∃ l ∈ linesWithEnds (str "# Copyright 2000\n"),
      copyrightIsMatch (trimSpace l) = true :=
  c2_span_implies_copyright_line _ (by decide)

/-- C2 counterexample: on `"Copyright 2000\n/* foo */\nrest"` the locator
reports the span of the comment block `/* foo */`, yet no line of that
block matches the copyright-line pattern: the bare copyright line before
the block set the `isBoiler` flag. -/
theorem c2_counterexample :
    findExistingBoilerplate (str "Copyright 2000\n/* foo */\nrest") =
      (15, 25, str "2000") ∧
    (linesWithEnds (goSlice (str "Copyright 2000\n/* foo */\nrest") 15 25)).all
      (fun l => !copyrightIsMatch (trimSpace l)) = true := by
  exact ⟨by decide, by decide⟩

/- ### C3 -/

/-- C3 (amended): when validation fails, the reason is "missing
boilerplate" exactly when the boilerplate part returned by `analyzeFile` is
empty — which happens when no block was located, but also when a block was
located and the header-skip function consumed all of it; in the remaining
cases the reason is "incorrect boilerplate". -/
theorem c3_missing_iff_empty_boilerplate (t : Template) (nowYear content : Str)
    (h : (failReason (validateContent t nowYear content)).isSome = true) :
    (failReason (validateContent t nowYear content) = some (str "missing boilerplate") ↔
      (analyzeFile t nowYear content).2.1 = []) := by
  unfold validateContent at h ⊢
  split_ifs at h ⊢ with h1 h2 h3
  · simp [failReason] at h
  · simp [failReason, h3]
  · simp only [failReason, h3, iff_false, Option.some_inj]
    decide
  · simp [failReason] at h

/-- C3 witness: the empty file fails with an empty boilerplate part and the
"missing boilerplate" reason. -/
theorem c3_witness :
    failReason (validateContent tmplSh (str "2026") (str "")) =
      some (str "missing boilerplate") ↔
    (analyzeFile tmplSh (str "2026") (str "")).2.1 = [] :=
  c3_missing_iff_empty_boilerplate tmplSh (str "2026") (str "") (by decide)

/-- C3 counterexample: on `"#!/bin/sh Copyright 2000\nfoo\n"` the locator
does locate a block (start 0), but the shebang header-skip consumes the
whole block, so the failure reason is "missing boilerplate" although a
block was located — refuting "incorrect boilerplate in every case where a
block was located". -/
theorem c3_counterexample :
    (findExistingBoilerplate (str "#!/bin/sh Copyright 2000\nfoo\n")).1 = 0 ∧
    failReason (validateContent tmplSh (str "2026")
      (str "#!/bin/sh Copyright 2000\nfoo\n")) = some (str "missing boilerplate") := by
  exact ⟨by decide, by decide⟩

/- ### C5 -/

/-- C5: any content matched anywhere by the skip-marker pattern or the
generated-file-marker pattern validates successfully, unconditionally and
with no further checks on the header shape. -/
theorem c5_markers_short_circuit (t : Template) (nowYear content : Str)
    (h : SkipFileRegexMatch content = true ∨ GeneratedRegexMatch content = true) :
    validateContent t nowYear content = VResult.ok := by
  unfold validateContent
  rcases h with h | h <;> rw [h] <;> simp

/-- C5 witness: a malformed shell file carrying the skip marker passes. -/
theorem c5_witness :
    (SkipFileRegexMatch (str "#!/bin/sh\n# +skip_license_check\n") = true ∨
      GeneratedRegexMatch (str "#!/bin/sh\n# +skip_license_check\n") = true) ∧
    validateContent tmplSh (str "2026") (str "#!/bin/sh\n# +skip_license_check\n") =
      VResult.ok :=
  ⟨Or.inl (by decide), c5_markers_short_circuit tmplSh _ _ (Or.inl (by decide))⟩

/- ### C7 -/

/-- C7 (amended): validating the empty file against the shell-style test
template fails with reason "missing boilerplate" and the expected content
(hence the patch) is exactly the three header lines with the current year
substituted — no blank line is appended after them. -/
theorem c7_empty_file_missing (now : Str) :
    validateContent tmplSh now (str "") =
      VResult.fail (str "missing boilerplate")
        (str "#header\n#Copyright " ++ (now ++ str " by Unittest\n#footer\n")) := by
  show VResult.fail (str "missing boilerplate")
      (headPartOf tmplSh now (str "") ++ boilExpectOf tmplSh now (str "")
        ++ footPartOf tmplSh now (str "")) = _
  rw [show headPartOf tmplSh now (str "") = [] from rfl,
    show footPartOf tmplSh now (str "") = [] from rfl,
    List.append_nil, List.nil_append]
  rfl

/-- C7 counterexample: the expected content for the empty file is the three
header lines only; it is not those lines followed by a blank line, as the
claim asserts. -/
theorem c7_counterexample :
    validateContent tmplSh (str "2026") (str "") =
      VResult.fail (str "missing boilerplate")
        (str "#header\n#Copyright 2026 by Unittest\n#footer\n") ∧
    validateContent tmplSh (str "2026") (str "") ≠
      VResult.fail (str "missing boilerplate")
        (str "#header\n#Copyright 2026 by Unittest\n#footer\n\n") := by
  exact ⟨by decide, by decide⟩

/- ### C8 -/

/-- C8 (amended): `NewTemplate` fails exactly when the template content
lacks the copyright marker `Copyright <<YEAR>>` (the year placeholder in
its required copyright context — a bare `<<YEAR>>` does not suffice), lacks
the author placeholder, or contains a carriage return. -/
theorem c8_newTemplate_error_iff (content ext author : Str) :
    NewTemplate content ext author = none ↔
      (containsSub CopyrightMarker content = false ∨
        containsSub AuthorMarker content = false ∨
        content.contains '\r' = true) := by
  unfold NewTemplate
  split_ifs with h1 h2 h3
  · exact iff_of_true rfl (Or.inl h1)
  · exact iff_of_true rfl (Or.inr (Or.inl h2))
  · exact iff_of_true rfl (Or.inr (Or.inr h3))
  · constructor
    · intro h; exact absurd h (by simp)
    · intro hdisj
      rcases hdisj with h | h | h
      · exact absurd h h1
      · exact absurd h h2
      · exact absurd h h3

/-- C8 counterexample: `"# <<YEAR>> by <<AUTHOR>>"` contains the year
placeholder and the author placeholder and no carriage return, yet
`NewTemplate` rejects it (the check requires `Copyright <<YEAR>>`, matching
the repository's `TestNewBadTemplate`). -/
theorem c8_counterexample :
    containsSub (str "<<YEAR>>") (str "# <<YEAR>> by <<AUTHOR>>") = true ∧
    containsSub (str "<<AUTHOR>>") (str "# <<YEAR>> by <<AUTHOR>>") = true ∧
    (str "# <<YEAR>> by <<AUTHOR>>").contains '\r' = false ∧
    NewTemplate (str "# <<YEAR>> by <<AUTHOR>>") (str "sh") (str "Unittest") = none := by
  exact ⟨by decide, by decide, by decide, by decide⟩

/- ### C9 -/

/-- C9 (amended): validation is a pure function of (template, content,
current year); moreover, whenever the locator captures a nonempty year from
the content, the verdict and expected content are independent of the
current year, so the result depends on the template and content alone. -/
theorem c9_clock_independent_when_year_captured (t : Template) (y1 y2 content : Str)
    (h : (findExistingBoilerplate content).2.2 ≠ []) :
    validateContent t y1 content = validateContent t y2 content := by
  have ha : analyzeFile t y1 content = analyzeFile t y2 content := by
    simp only [analyzeFile, if_neg h]
  simp only [validateContent, expectedContent, headPartOf, footPartOf, boilExpectOf, ha]

/-- C9 witness: on a file with a captured year the verdict is the same in
2026 and 2027. -/
theorem c9_witness :
    validateContent tmplSh (str "2026")
      (str "#header\n#Copyright 2000 by Unittest\n#footer\n\nfoo\n") =
    validateContent tmplSh (str "2027")
      (str "#header\n#Copyright 2000 by Unittest\n#footer\n\nfoo\n") :=
  c9_clock_independent_when_year_captured tmplSh _ _ _ (by decide)

/-- C9 counterexample: the result is not a function of (template, content)
alone — on `"foo\n"` (no year found) the generated expected content embeds
the current calendar year, so validations run in different years differ. -/
theorem c9_counterexample :
    validateContent tmplSh (str "2026") (str "foo\n") ≠
      validateContent tmplSh (str "2027") (str "foo\n") := by
  decide

/- ### C1 -/

/-- C1 (amended): for a template built by `NewTemplate` and an accepted year
Y, validating the template text with the year placeholder replaced by Y
succeeds, provided additionally that the locator recognizes that whole
substituted text as the boilerplate block capturing exactly Y, that the
header-skip function skips nothing inside it, and that the substituted text
contains no CRLF sequence.  (Each extra proviso is forced by a
counterexample: a template whose text starts with a shebang line, a
template whose copyright line is not part of a comment block spanning the
whole text, or a template containing a second literal copyright year.) -/
theorem c1_template_text_validates (tc ext au Y now : Str) (T : Template)
    (_hT : NewTemplate tc ext au = some T)
    (hY : yearAccepted Y = true)
    (hloc : findExistingBoilerplate (replaceAll YearMarker Y T.text) =
      (0, (((replaceAll YearMarker Y T.text).length : Nat) : Int), Y))
    (hskip : runSkip T.skipKind (replaceAll YearMarker Y T.text) = 0)
    (hcrlf : crlfMode (replaceAll YearMarker Y T.text) = false) :
    validateContent T now (replaceAll YearMarker Y T.text) = VResult.ok := by
  have hYne : Y ≠ [] := by
    intro h
    rw [h] at hY
    exact Bool.noConfusion hY
  set c := replaceAll YearMarker Y T.text with hc
  have hspan : analyzeSpan T c = (0, ((c.length : Nat) : Int)) := by
    unfold analyzeSpan
    rw [hloc]
    dsimp only
    rw [if_neg (by decide)]
    have hslice : goSlice c (Int.toNat 0) (((c.length : Nat) : Int)).toNat = c := by
      simp [goSlice]
    rw [hslice, hskip]
    simp
  have hana : analyzeFile T now c = ([], c, [], Y) := by
    unfold analyzeFile
    rw [hspan, hloc]
    dsimp only
    rw [if_neg hYne]
    simp [goSlice]
  have hexp : expectedContent T now c = c := by
    unfold expectedContent headPartOf boilExpectOf footPartOf
    rw [hana]
    dsimp only
    rw [hcrlf]
    simp [trimSpace, trimLeftWS, ← hc]
  unfold validateContent
  by_cases hm : (SkipFileRegexMatch c || GeneratedRegexMatch c) = true
  · rw [if_pos hm]
  · rw [if_neg hm, if_neg (by rw [hexp]; exact fun hne => hne rfl)]

/-- C1 witness: the shell-style test template with year 2000. -/
theorem c1_witness :
    NewTemplate (str "#header\n#Copyright <<YEAR>> by <<AUTHOR>>\n#footer")
      (str "sh") (str "Unittest") = some tmplSh ∧
    yearAccepted (str "2000") = true ∧
    validateContent tmplSh (str "2026")
      (replaceAll YearMarker (str "2000") tmplSh.text) = VResult.ok :=
  ⟨by decide, by decide,
    c1_template_text_validates (str "#header\n#Copyright <<YEAR>> by <<AUTHOR>>\n#footer")
      (str "sh") (str "Unittest") (str "2000") (str "2026") tmplSh (by decide) (by decide)
      (by decide) (by decide) (by decide)⟩

/-- A template whose text itself starts with a shebang line, accepted by
`NewTemplate` for the sh category. -/
def tmplShebang : Template :=
  (NewTemplate (str "#!/bin/sh\n#Copyright <<YEAR>> by <<AUTHOR>>")
    (str "sh") (str "A")).getD ⟨[], SkipKind.noSkip⟩

/-- C1 counterexample: for the shebang-headed template built by
`NewTemplate` and the accepted year 2000, validating the template text with
the year substituted fails (the shebang header-skip splits the block, and
the rebuilt expected content inserts a blank line after the shebang), so
the claim does not hold for every template. -/
theorem c1_counterexample :
    NewTemplate (str "#!/bin/sh\n#Copyright <<YEAR>> by <<AUTHOR>>")
      (str "sh") (str "A") = some tmplShebang ∧
    yearAccepted (str "2000") = true ∧
    validateContent tmplShebang (str "2026")
      (replaceAll YearMarker (str "2000") tmplShebang.text) ≠ VResult.ok := by
  exact ⟨by decide, by decide, by decide⟩

/- ### CRLF bookkeeping for C4 -/

/-- Scan for a CRLF pair: `prev` is the previous character. -/
def crlfFreeAux : Char → Str → Bool
  | _, [] => true
  | prev, c :: cs => if c = '\n' ∧ prev = '\r' then false else crlfFreeAux c cs

/-- The string contains no CRLF pair. -/
def crlfFree : Str → Bool
  | [] => true
  | c :: cs => crlfFreeAux c cs

/-- Scan for a line feed not preceded by a carriage return (the seed is any
non-CR character, so a leading LF counts as bare). -/
def noBareLFAux : Char → Str → Bool
  | _, [] => true
  | prev, c :: cs => if c = '\n' ∧ prev ≠ '\r' then false else noBareLFAux c cs

/-- Every line feed of the string is immediately preceded by a carriage
return, i.e. every line break is a CRLF one. -/
def noBareLF (l : Str) : Bool := noBareLFAux ' ' l

theorem crlfFreeAux_false_iff : ∀ (cs : Str) (c : Char),
    crlfFreeAux c cs = false ↔ containsSub (str "\r\n") (c :: cs) = true := by
  intro cs
  induction cs with
  | nil =>
    intro c
    constructor
    · intro h; exact Bool.noConfusion h
    · intro h
      rw [show containsSub (str "\r\n") [c] =
          (startsWith (str "\r\n") [c] || containsSub (str "\r\n") []) from rfl] at h
      cases c
      simp [startsWith, containsSub, str] at h
  | cons d ds ih =>
    intro c
    rw [show containsSub (str "\r\n") (c :: d :: ds) =
        (startsWith (str "\r\n") (c :: d :: ds) || containsSub (str "\r\n") (d :: ds))
        from rfl]
    rw [show startsWith (str "\r\n") (c :: d :: ds) =
        (decide ('\r' = c) && (decide ('\n' = d) && true)) from rfl]
    rw [crlfFreeAux]
    by_cases hcd : d = '\n' ∧ c = '\r'
    · rw [if_pos hcd, hcd.1, hcd.2]
      simp
    · rw [if_neg hcd, ih d]
      constructor
      · intro h; rw [h]; simp
      · intro h
        rcases Bool.or_eq_true _ _ |>.mp h with h' | h'
        · rw [Bool.and_eq_true, Bool.and_eq_true] at h'
          exact absurd ⟨(decide_eq_true_eq.mp h'.2.1).symm,
            (decide_eq_true_eq.mp h'.1).symm⟩ hcd
        · exact h'

theorem crlfFree_iff_not_containsSub (l : Str) :
    crlfFree l = true ↔ containsSub (str "\r\n") l = false := by
  cases l with
  | nil => exact iff_of_true rfl rfl
  | cons c cs =>
    rw [show crlfFree (c :: cs) = crlfFreeAux c cs from rfl]
    constructor
    · intro h
      by_contra hcon
      rw [Bool.not_eq_false] at hcon
      rw [(crlfFreeAux_false_iff cs c).mpr hcon] at h
      exact Bool.noConfusion h
    · intro h
      by_contra hne
      rw [Bool.not_eq_true] at hne
      rw [(crlfFreeAux_false_iff cs c).mp hne] at h
      exact Bool.noConfusion h

theorem crlfFreeAux_append : ∀ (x : Str) (p : Char) (y : Str),
    crlfFreeAux p (x ++ y) = (crlfFreeAux p x && crlfFreeAux (x.getLastD p) y) := by
  intro x
  induction x with
  | nil => intro p y; simp [crlfFreeAux]
  | cons c x' ih =>
    intro p y
    rw [List.cons_append, crlfFreeAux, crlfFreeAux, List.getLastD_cons]
    by_cases h : c = '\n' ∧ p = '\r'
    · rw [if_pos h, if_pos h]
      simp
    · rw [if_neg h, if_neg h, ih]

theorem crlfFreeAux_head_eq (p : Char) (y : Str) :
    crlfFreeAux p y = if y.head? = some '\n' ∧ p = '\r' then false else crlfFree y := by
  cases y with
  | nil => simp [crlfFreeAux, crlfFree]
  | cons d ds =>
    rw [show crlfFreeAux p (d :: ds) =
        (if d = '\n' ∧ p = '\r' then false else crlfFreeAux d ds) from rfl]
    simp only [List.head?_cons, Option.some_inj]
    rfl

theorem crlfFree_append_of {x y : Str} (hx : crlfFree x = true) (hy : crlfFree y = true)
    (hj : ¬(x.getLast? = some '\r' ∧ y.head? = some '\n')) :
    crlfFree (x ++ y) = true := by
  cases x with
  | nil => simpa using hy
  | cons c x' =>
    show crlfFreeAux c (x' ++ y) = true
    rw [crlfFreeAux_append, Bool.and_eq_true]
    refine ⟨hx, ?_⟩
    rw [crlfFreeAux_head_eq]
    rw [if_neg ?_]
    · exact hy
    · intro hcond
      exact hj ⟨by rw [List.getLast?_cons, ← List.getLastD_eq_getLast?, hcond.2], hcond.1⟩

theorem noCR_crlfFreeAux : ∀ (cs : Str) (p : Char), p ≠ '\r' → '\r' ∉ cs →
    crlfFreeAux p cs = true := by
  intro cs
  induction cs with
  | nil => intro p _ _; rfl
  | cons d ds ih =>
    intro p hp hmem
    rw [crlfFreeAux, if_neg (fun hcond => hp hcond.2)]
    exact ih d (fun hd => hmem (hd ▸ List.mem_cons_self d ds))
      (fun hd => hmem (List.mem_cons_of_mem d hd))

theorem crlfFree_of_noCR {l : Str} (h : '\r' ∉ l) : crlfFree l = true := by
  cases l with
  | nil => rfl
  | cons c cs =>
    show crlfFreeAux c cs = true
    exact noCR_crlfFreeAux cs c (fun hc => h (hc ▸ List.mem_cons_self c cs))
      (fun hc => h (List.mem_cons_of_mem c hc))

theorem getLast?_mem : ∀ {l : Str} {a : Char}, l.getLast? = some a → a ∈ l := by
  intro l
  induction l with
  | nil => intro a h; exact Option.noConfusion h
  | cons c cs ih =>
    intro a h
    cases cs with
    | nil =>
      rw [List.getLast?_singleton] at h
      exact (Option.some_inj.mp h) ▸ List.mem_cons_self c []
    | cons d ds =>
      rw [List.getLast?_cons_cons] at h
      exact List.mem_cons_of_mem c (ih h)

theorem noBareLFAux_crlf_fuel : ∀ (fuel : Nat) (s : Str) (prev : Char), s.length ≤ fuel →
    noBareLFAux prev (replaceAllFuel (str "\n") (str "\r\n") fuel s) = true := by
  intro fuel
  induction fuel with
  | zero =>
    intro s prev hlen
    cases s with
    | nil => rfl
    | cons c cs => simp at hlen
  | succ n ih =>
    intro s prev hlen
    cases s with
    | nil => rfl
    | cons c cs =>
      have hlen' : cs.length ≤ n := by
        simp only [List.length_cons] at hlen
        omega
      by_cases hc : c = '\n'
      · subst hc
        rw [show replaceAllFuel (str "\n") (str "\r\n") (n + 1) ('\n' :: cs) =
            if (str "\n") ≠ [] ∧ startsWith (str "\n") ('\n' :: cs) = true then
              (str "\r\n") ++
                replaceAllFuel (str "\n") (str "\r\n") n (('\n' :: cs).drop (str "\n").length)
            else '\n' :: replaceAllFuel (str "\n") (str "\r\n") n cs from rfl]
        rw [if_pos ⟨by decide, rfl⟩]
        show noBareLFAux prev
          ('\r' :: '\n' :: replaceAllFuel (str "\n") (str "\r\n") n cs) = true
        rw [noBareLFAux, if_neg (fun hcond => absurd hcond.1 (by decide))]
        rw [noBareLFAux, if_neg (fun hcond => hcond.2 rfl)]
        exact ih cs '\n' hlen'
      · rw [show replaceAllFuel (str "\n") (str "\r\n") (n + 1) (c :: cs) =
            if (str "\n") ≠ [] ∧ startsWith (str "\n") (c :: cs) = true then
              (str "\r\n") ++
                replaceAllFuel (str "\n") (str "\r\n") n ((c :: cs).drop (str "\n").length)
            else c :: replaceAllFuel (str "\n") (str "\r\n") n cs from rfl]
        rw [if_neg (by
          intro hcond
          have h2 := hcond.2
          rw [show startsWith (str "\n") (c :: cs) =
              (decide ('\n' = c) && startsWith [] cs) from rfl,
            Bool.and_eq_true, decide_eq_true_eq] at h2
          exact hc h2.1.symm)]
        rw [noBareLFAux, if_neg (fun hcond => hc hcond.1)]
        exact ih cs c hlen'

theorem noBareLF_crlfify (s : Str) :
    noBareLF (replaceAll (str "\n") (str "\r\n") s) = true :=
  noBareLFAux_crlf_fuel s.length s ' ' (le_refl _)

/- ### C4 -/

/-- C4 (amended): if the content contains a CRLF sequence then the
separator is CRLF and every line break of the expected boilerplate block
uses CRLF; however line breaks inside the retained head and foot regions
are carried over from the original content unchanged, so the whole
expected assembly need not be CRLF-only.  If the content contains no CRLF
sequence (and template text and current year are CR-free, as `NewTemplate`
guarantees for the text), the expected assembly contains no CRLF at all. -/
theorem c4_newline_normalization (t : Template) (now c : Str) :
    (crlfMode c = true →
      nlOf c = str "\r\n" ∧ noBareLF (boilExpectOf t now c) = true) ∧
    (crlfMode c = false → '\r' ∉ t.text → '\r' ∉ now →
      containsSub (str "\r\n") (expectedContent t now c) = false) := by
  constructor
  · intro h
    refine ⟨by simp [nlOf, h], ?_⟩
    unfold boilExpectOf
    rw [h]
    rw [if_pos rfl]
    exact noBareLF_crlfify _
  · intro hmode htext hnow
    rw [← crlfFree_iff_not_containsSub]
    have hnl : nlOf c = ['\n'] := by
      unfold nlOf
      rw [hmode]
      rfl
    have hcfree : ∀ x : Str, x <:+: c → crlfFree x = true := by
      intro x hx
      rw [crlfFree_iff_not_containsSub]
      exact containsSub_false_mono hx hmode
    have hheadInfix : (analyzeFile t now c).1 <:+: c := by
      rw [show (analyzeFile t now c).1 = c.take (analyzeSpan t c).1.toNat from rfl]
      exact (List.take_prefix _ c).isInfix
    have hfootInfix : (analyzeFile t now c).2.2.1 <:+: c := by
      rw [show (analyzeFile t now c).2.2.1 = c.drop (analyzeSpan t c).2.toNat from rfl]
      exact (List.drop_suffix _ c).isInfix
    have hyear : '\r' ∉ (analyzeFile t now c).2.2.2 := by
      show '\r' ∉ (if (findExistingBoilerplate c).2.2 = [] then now
        else (findExistingBoilerplate c).2.2)
      split
      · exact hnow
      · exact scanLines_year_no_cr (linesWithEnds c) 0 Block.out false (-1) [] (by simp)
    have hBnoCR : '\r' ∉ boilExpectOf t now c := by
      intro hmem
      unfold boilExpectOf at hmem
      rw [hmode] at hmem
      rw [if_neg (by exact Bool.noConfusion)] at hmem
      rcases replaceAll_mem hmem with h | h
      · exact hyear h
      · exact htext h
    have hBfree : crlfFree (boilExpectOf t now c) = true := crlfFree_of_noCR hBnoCR
    have hBlast : (boilExpectOf t now c).getLast? ≠ some '\r' :=
      fun h => hBnoCR (getLast?_mem h)
    have hAfacts : crlfFree (headPartOf t now c) = true ∧
        (headPartOf t now c).getLast? ≠ some '\r' := by
      by_cases hg0 : trimSpace (analyzeFile t now c).1 = []
      · have hA : headPartOf t now c = [] := by
          unfold headPartOf
          rw [hg0]
          simp
        rw [hA]
        exact ⟨rfl, by simp⟩
      · have hA : headPartOf t now c =
            trimSpace (analyzeFile t now c).1 ++ ['\n'] ++ ['\n'] := by
          unfold headPartOf
          rw [if_pos hg0, hnl]
        have hgfree : crlfFree (trimSpace (analyzeFile t now c).1) = true :=
          hcfree _ ((trimSpace_infixOf _).trans hheadInfix)
        have hglast : (trimSpace (analyzeFile t now c).1).getLast? ≠ some '\r' := by
          rcases trimSpace_getLast_not_space hg0 with ⟨d, hd1, hd2⟩
          rw [hd1]
          intro hcontra
          rw [Option.some_inj.mp hcontra] at hd2
          exact Bool.noConfusion hd2
        rw [hA]
        constructor
        · refine crlfFree_append_of (crlfFree_append_of hgfree rfl ?_) rfl ?_
          · intro hpair
            exact hglast hpair.1
          · intro hpair
            rw [List.getLast?_concat] at hpair
            exact absurd (Option.some_inj.mp hpair.1) (by decide)
        · rw [List.getLast?_concat]
          intro hcontra
          exact absurd (Option.some_inj.mp hcontra) (by decide)
    have hFfree : crlfFree (footPartOf t now c) = true := by
      by_cases hf0 : (analyzeFile t now c).2.2.1 = []
      · have hF : footPartOf t now c = [] := by
          unfold footPartOf
          rw [hf0]
          simp
        rw [hF]
        rfl
      · have hF : footPartOf t now c =
            '\n' :: trimLeftWS (analyzeFile t now c).2.2.1 := by
          unfold footPartOf
          rw [if_pos hf0, hnl]
          rfl
        rw [hF]
        show crlfFreeAux '\n' (trimLeftWS (analyzeFile t now c).2.2.1) = true
        rw [crlfFreeAux_head_eq]
        rw [if_neg (by intro hpair; exact absurd hpair.2 (by decide))]
        exact hcfree _ ((trimLeftWS_suffix _).isInfix.trans hfootInfix)
    have hAB : crlfFree (headPartOf t now c ++ boilExpectOf t now c) = true :=
      crlfFree_append_of hAfacts.1 hBfree (fun hpair => hAfacts.2 hpair.1)
    have hABlast : (headPartOf t now c ++ boilExpectOf t now c).getLast? ≠ some '\r' := by
      by_cases hB0 : boilExpectOf t now c = []
      · rw [hB0, List.append_nil]
        exact hAfacts.2
      · rw [List.getLast?_append_of_ne_nil _ hB0]
        exact hBlast
    show crlfFree (headPartOf t now c ++ boilExpectOf t now c ++ footPartOf t now c) = true
    exact crlfFree_append_of hAB hFfree (fun hpair => hABlast hpair.1)

/-- C4 witness: the CRLF half on a CRLF file, the LF half on an LF file. -/
theorem c4_witness :
    (nlOf (str "a\r\nb\n") = str "\r\n" ∧
      noBareLF (boilExpectOf tmplSh (str "2026") (str "a\r\nb\n")) = true) ∧
    containsSub (str "\r\n") (expectedContent tmplSh (str "2026") (str "foo\n")) = false :=
  ⟨(c4_newline_normalization tmplSh (str "2026") (str "a\r\nb\n")).1 (by decide),
    (c4_newline_normalization tmplSh (str "2026") (str "foo\n")).2 (by decide)
      (by decide) (by decide)⟩

/-- C4 counterexample: a file that validates successfully (so it equals the
expected assembly `validateContent` compares against) while containing a
CRLF sequence, whose foot region nevertheless keeps LF-only line breaks —
refuting "every line break in the expected assembly is CRLF". -/
theorem c4_counterexample :
    validateContent tmplSh (str "2026")
      (str "#header\r\n#Copyright 2000 by Unittest\r\n#footer\r\n\r\nfoo\nbar\n") =
      VResult.ok ∧
    crlfMode
      (str "#header\r\n#Copyright 2000 by Unittest\r\n#footer\r\n\r\nfoo\nbar\n") = true ∧
    expectedContent tmplSh (str "2026")
      (str "#header\r\n#Copyright 2000 by Unittest\r\n#footer\r\n\r\nfoo\nbar\n") =
      str "#header\r\n#Copyright 2000 by Unittest\r\n#footer\r\n\r\nfoo\nbar\n" ∧
    noBareLF
      (str "#header\r\n#Copyright 2000 by Unittest\r\n#footer\r\n\r\nfoo\nbar\n") = false := by
  exact ⟨by decide, by decide, by decide, by decide⟩

/- ### C6 -/

theorem nlOf_ne_nil (x : Str) : nlOf x ≠ [] := by
  unfold nlOf
  split
  · decide
  · decide

theorem nlOf_space (x : Str) : ∀ d ∈ nlOf x, isSpaceChar d = true := by
  unfold nlOf
  split
  · intro d hd
    rw [show str "\r\n" = ['\r', '\n'] from rfl] at hd
    rcases List.mem_cons.mp hd with rfl | hd
    · decide
    rcases List.mem_cons.mp hd with rfl | hd
    · decide
    · simp at hd
  · intro d hd
    rw [show str "\n" = ['\n'] from rfl] at hd
    rcases List.mem_cons.mp hd with rfl | hd
    · decide
    · simp at hd

/-- C6 (amended): if validating a file fails with expected content `e` (the
content the generated patch produces), then re-validating `e` succeeds,
provided the re-analysis of `e` recovers exactly the assembled parts — the
head, substituted boilerplate block and foot of the original assembly, with
the same year — and `e` has the same newline style as the original.  (The
proviso is forced: for a template containing a second literal copyright
year, the re-analysis captures that later year, rebuilds a different
expected content, and re-validation fails.) -/
theorem c6_patch_application_revalidates (t : Template) (nowYear c r e : Str)
    (hfail : validateContent t nowYear c = VResult.fail r e)
    (hre : analyzeFile t nowYear e =
      (headPartOf t nowYear c, boilExpectOf t nowYear c, footPartOf t nowYear c,
        (analyzeFile t nowYear c).2.2.2))
    (hcrlf : crlfMode e = crlfMode c) :
    validateContent t nowYear e = VResult.ok := by
  have he : e = expectedContent t nowYear c := by
    unfold validateContent at hfail
    split_ifs at hfail <;>
      first
        | exact VResult.noConfusion hfail
        | (injection hfail with _ h; exact h.symm)
  have hnl : nlOf e = nlOf c := by
    unfold nlOf
    rw [hcrlf]
  have headPartOf_eq : ∀ x : Str, headPartOf t nowYear x =
      (if trimSpace (analyzeFile t nowYear x).1 ≠ [] then
        trimSpace (analyzeFile t nowYear x).1 ++ nlOf x ++ nlOf x
      else trimSpace (analyzeFile t nowYear x).1) := fun _ => rfl
  have footPartOf_eq : ∀ x : Str, footPartOf t nowYear x =
      (if (analyzeFile t nowYear x).2.2.1 ≠ [] then
        nlOf x ++ trimLeftWS (analyzeFile t nowYear x).2.2.1
      else (analyzeFile t nowYear x).2.2.1) := fun _ => rfl
  have boilExpectOf_eq : ∀ x : Str, boilExpectOf t nowYear x =
      (if crlfMode x then
        replaceAll (str "\n") (str "\r\n")
          (replaceAll YearMarker (analyzeFile t nowYear x).2.2.2 t.text)
      else replaceAll YearMarker (analyzeFile t nowYear x).2.2.2 t.text) := fun _ => rfl
  have h1e : (analyzeFile t nowYear e).1 = headPartOf t nowYear c := by rw [hre]
  have h3e : (analyzeFile t nowYear e).2.2.1 = footPartOf t nowYear c := by rw [hre]
  have h4e : (analyzeFile t nowYear e).2.2.2 = (analyzeFile t nowYear c).2.2.2 := by
    rw [hre]
  have hH : headPartOf t nowYear e = headPartOf t nowYear c := by
    rw [headPartOf_eq e, h1e, hnl]
    by_cases hg0 : trimSpace (analyzeFile t nowYear c).1 = []
    · have hA : headPartOf t nowYear c = [] := by
        rw [headPartOf_eq c, hg0]
        simp
      rw [hA, show trimSpace ([] : Str) = [] from rfl]
      simp
    · have hA : headPartOf t nowYear c =
          trimSpace (analyzeFile t nowYear c).1 ++ nlOf c ++ nlOf c := by
        rw [headPartOf_eq c, if_pos hg0]
      have hts : trimSpace
          (trimSpace (analyzeFile t nowYear c).1 ++ nlOf c ++ nlOf c) =
          trimSpace (analyzeFile t nowYear c).1 := by
        rw [List.append_assoc, trimSpace_append_space (by
          intro d hd
          rcases List.mem_append.mp hd with hd | hd <;> exact nlOf_space _ _ hd)]
        exact trimSpace_idem _
      rw [hA, hts, if_pos hg0]
  have hB : boilExpectOf t nowYear e = boilExpectOf t nowYear c := by
    rw [boilExpectOf_eq e, h4e, hcrlf, boilExpectOf_eq c]
  have hF : footPartOf t nowYear e = footPartOf t nowYear c := by
    rw [footPartOf_eq e, h3e, hnl]
    by_cases hf1 : (analyzeFile t nowYear c).2.2.1 = []
    · have hFc : footPartOf t nowYear c = [] := by
        rw [footPartOf_eq c, hf1]
        simp
      rw [hFc]
      simp
    · have hFc : footPartOf t nowYear c =
          nlOf c ++ trimLeftWS (analyzeFile t nowYear c).2.2.1 := by
        rw [footPartOf_eq c, if_pos hf1]
      rw [hFc, if_pos (fun hnil => nlOf_ne_nil c (List.append_eq_nil.mp hnil).1),
        trimLeftWS_append_space (nlOf_space c), trimLeftWS_idem]
  have hexp : expectedContent t nowYear e = e := by
    unfold expectedContent
    rw [hH, hB, hF]
    exact he.symm
  unfold validateContent
  by_cases hm : (SkipFileRegexMatch e || GeneratedRegexMatch e) = true
  · rw [if_pos hm]
  · rw [if_neg hm, if_neg (by rw [hexp]; exact fun hne => hne rfl)]

/-- C6 witness: the empty shell file fails, and validating the patched
content (the expected assembly) succeeds. -/
theorem c6_witness :
    validateContent tmplSh (str "2026")
      (str "#header\n#Copyright 2026 by Unittest\n#footer\n") = VResult.ok :=
  c6_patch_application_revalidates tmplSh (str "2026") (str "")
    (str "missing boilerplate") (str "#header\n#Copyright 2026 by Unittest\n#footer\n")
    (by decide) (by decide) (by decide)

/-- A template, accepted by `NewTemplate`, whose body contains a second,
literal copyright year after the year placeholder line. -/
def tmplTwoYears : Template :=
  (NewTemplate (str "# Copyright <<YEAR>>\n# Copyright 2019\n# by <<AUTHOR>>")
    (str "txt") (str "A")).getD ⟨[], SkipKind.noSkip⟩

/-- C6 counterexample: for the two-year template, the empty file fails with
a patch producing the expected content, but re-validating that content
fails (the locator's last-match-wins year capture now returns 2019, so the
rebuilt expectation differs) — refuting idempotence as universally
claimed. -/
theorem c6_counterexample :
    validateContent tmplTwoYears (str "2026") (str "") =
      VResult.fail (str "missing boilerplate")
        (str "# Copyright 2026\n# Copyright 2019\n# by A\n") ∧
    validateContent tmplTwoYears (str "2026")
      (str "# Copyright 2026\n# Copyright 2019\n# by A\n") ≠ VResult.ok := by
  exact ⟨by decide, by decide⟩

end Boilersuite
